import Mathlib

/-!
Verification of the aurora token module
(`backend/services/api/src/v1/token.rs` and its caller
`backend/services/api/src/v1/routes/auth.rs`).

Bytes are modelled as `Nat` values below 256, machine words of SHA-512 as
`Nat` values reduced modulo `2 ^ 64`, `u64` fields as `Nat`, and `i64`
fields as `Int`.  The process-wide configuration (`HMAC_SECURITY_KEY`,
`TOKEN_EXPIRATION_TIME`) and the clock are passed as explicit parameters.
-/

namespace Aurora

/-- `2 ^ 64`, the modulus of the 64-bit words used by SHA-512. -/
def M64 : Nat := 18446744073709551616

/-- Addition of 64-bit words, wrapping modulo `2 ^ 64`. -/
def wadd (a b : Nat) : Nat := (a + b) % M64

/-- Right rotation of a 64-bit word by `n` bits. -/
def rotr (n w : Nat) : Nat := ((w >>> n) ||| (w <<< (64 - n))) % M64

/-- Logical right shift of a 64-bit word. -/
def shr (n w : Nat) : Nat := w >>> n

/-- Bitwise complement of a 64-bit word. -/
def wnot (w : Nat) : Nat := w ^^^ (M64 - 1)

/-- The SHA-512 choice function. -/
def ch (e f g : Nat) : Nat := (e &&& f) ^^^ ((wnot e) &&& g)

/-- The SHA-512 majority function. -/
def maj (a b c : Nat) : Nat := (a &&& b) ^^^ (a &&& c) ^^^ (b &&& c)

/-- The SHA-512 big sigma-0 function. -/
def bsig0 (a : Nat) : Nat := (rotr 28 a) ^^^ (rotr 34 a) ^^^ (rotr 39 a)

/-- The SHA-512 big sigma-1 function. -/
def bsig1 (e : Nat) : Nat := (rotr 14 e) ^^^ (rotr 18 e) ^^^ (rotr 41 e)

/-- The SHA-512 small sigma-0 function. -/
def ssig0 (x : Nat) : Nat := (rotr 1 x) ^^^ (rotr 8 x) ^^^ (shr 7 x)

/-- The SHA-512 small sigma-1 function. -/
def ssig1 (x : Nat) : Nat := (rotr 19 x) ^^^ (rotr 61 x) ^^^ (shr 6 x)

/-- The 80 SHA-512 round constants (FIPS 180-4). -/
def K512 : List Nat :=
  [4794697086780616226, 8158064640168781261, 13096744586834688815,
   16840607885511220156, 4131703408338449720, 6480981068601479193,
   10538285296894168987, 12329834152419229976, 15566598209576043074,
   1334009975649890238, 2608012711638119052, 6128411473006802146,
   8268148722764581231, 9286055187155687089, 11230858885718282805,
   13951009754708518548, 16472876342353939154, 17275323862435702243,
   1135362057144423861, 2597628984639134821, 3308224258029322869,
   5365058923640841347, 6679025012923562964, 8573033837759648693,
   10970295158949994411, 12119686244451234320, 12683024718118986047,
   13788192230050041572, 14330467153632333762, 15395433587784984357,
   489312712824947311, 1452737877330783856, 2861767655752347644,
   3322285676063803686, 5560940570517711597, 5996557281743188959,
   7280758554555802590, 8532644243296465576, 9350256976987008742,
   10552545826968843579, 11727347734174303076, 12113106623233404929,
   14000437183269869457, 14369950271660146224, 15101387698204529176,
   15463397548674623760, 17586052441742319658, 1182934255886127544,
   1847814050463011016, 2177327727835720531, 2830643537854262169,
   3796741975233480872, 4115178125766777443, 5681478168544905931,
   6601373596472566643, 7507060721942968483, 8399075790359081724,
   8693463985226723168, 9568029438360202098, 10144078919501101548,
   10430055236837252648, 11840083180663258601, 13761210420658862357,
   14299343276471374635, 14566680578165727644, 15097957966210449927,
   16922976911328602910, 17689382322260857208, 500013540394364858,
   748580250866718886, 1242879168328830382, 1977374033974150939,
   2944078676154940804, 3659926193048069267, 4368137639120453308,
   4836135668995329356, 5532061633213252278, 6448918945643986474,
   6902733635092675308, 7801388544844847127]

/-- The eight-word working state of SHA-512. -/
structure Hash8 where
  r0 : Nat
  r1 : Nat
  r2 : Nat
  r3 : Nat
  r4 : Nat
  r5 : Nat
  r6 : Nat
  r7 : Nat
deriving Repr, DecidableEq

/-- The SHA-512 initial hash value (FIPS 180-4). -/
def initH : Hash8 :=
  ⟨7640891576956012808, 13503953896175478587,
   4354685564936845355, 11912009170470909681,
   5840696475078001361, 11170449401992604703,
   2270897969802886507, 6620516959819538809⟩

/-- Group a byte list into big-endian 64-bit words, eight bytes per word. -/
def wordsOfBytes : List Nat → List Nat
  | b0 :: b1 :: b2 :: b3 :: b4 :: b5 :: b6 :: b7 :: rest =>
      (b0 * 2 ^ 56 + b1 * 2 ^ 48 + b2 * 2 ^ 40 + b3 * 2 ^ 32 +
       b4 * 2 ^ 24 + b5 * 2 ^ 16 + b6 * 2 ^ 8 + b7) :: wordsOfBytes rest
  | _ => []

/-- The next word of the SHA-512 message schedule, from the words so far. -/
def nextW (acc : List Nat) : Nat :=
  let n := acc.length
  wadd (wadd (ssig1 (acc.getD (n - 2) 0)) (acc.getD (n - 7) 0))
       (wadd (ssig0 (acc.getD (n - 15) 0)) (acc.getD (n - 16) 0))

/-- Extend the sixteen words of a block to the 80-entry message schedule. -/
def msgSchedule (ws : List Nat) : List Nat :=
  (List.range 64).foldl (fun acc _ => acc ++ [nextW acc]) ws

/-- One SHA-512 round on the working variables. -/
def roundStep (st : Hash8) (kw : Nat × Nat) : Hash8 :=
  let t1 := wadd st.r7 (wadd (bsig1 st.r4) (wadd (ch st.r4 st.r5 st.r6) (wadd kw.1 kw.2)))
  let t2 := wadd (bsig0 st.r0) (maj st.r0 st.r1 st.r2)
  ⟨wadd t1 t2, st.r0, st.r1, st.r2, wadd st.r3 t1, st.r4, st.r5, st.r6⟩

/-- The SHA-512 compression function on a single 128-byte block. -/
def compress (st : Hash8) (block : List Nat) : Hash8 :=
  let ws := msgSchedule (wordsOfBytes block)
  let f := (K512.zip ws).foldl roundStep st
  ⟨wadd st.r0 f.r0, wadd st.r1 f.r1, wadd st.r2 f.r2, wadd st.r3 f.r3,
   wadd st.r4 f.r4, wadd st.r5 f.r5, wadd st.r6 f.r6, wadd st.r7 f.r7⟩

/-- Split a byte list into consecutive 128-byte blocks. -/
def chunks128 : List Nat → List (List Nat)
  | [] => []
  | b :: rest => (b :: rest).take 128 :: chunks128 ((b :: rest).drop 128)
termination_by l => l.length
decreasing_by simp; omega

/-- Big-endian serialization of a 64-bit word into eight bytes. -/
def w8bytes (w : Nat) : List Nat :=
  [w / 2 ^ 56 % 256, w / 2 ^ 48 % 256, w / 2 ^ 40 % 256, w / 2 ^ 32 % 256,
   w / 2 ^ 24 % 256, w / 2 ^ 16 % 256, w / 2 ^ 8 % 256, w % 256]

/-- Serialize the final SHA-512 state into its 64-byte digest. -/
def hashBytes (h : Hash8) : List Nat :=
  w8bytes h.r0 ++ w8bytes h.r1 ++ w8bytes h.r2 ++ w8bytes h.r3 ++
  w8bytes h.r4 ++ w8bytes h.r5 ++ w8bytes h.r6 ++ w8bytes h.r7

/-- Big-endian serialization of the 128-bit message length into 16 bytes. -/
def lenBytes128 (n : Nat) : List Nat :=
  (List.range 16).map (fun i => n / 2 ^ (8 * (15 - i)) % 256)

/-- SHA-512 padding: a `0x80` byte, zero bytes, and the 128-bit bit length. -/
def sha512pad (msg : List Nat) : List Nat :=
  msg ++ 0x80 :: (List.replicate ((128 - (msg.length + 17) % 128) % 128) 0
    ++ lenBytes128 (8 * msg.length))

/-- SHA-512 of a byte list, as its 64-byte digest. -/
def sha512 (msg : List Nat) : List Nat :=
  hashBytes ((chunks128 (sha512pad msg)).foldl compress initH)

/-- HMAC-SHA-512: keys longer than the 128-byte block are hashed first, the
key is zero-padded to the block size, and the digest is
`H((k xor opad) ++ H((k xor ipad) ++ msg))`.  This models
`Hmac::<Sha512>` from the `hmac` crate; for HMAC, `new_from_slice`
accepts keys of every length and never fails, so `TokenError::HmacGeneration`
is unreachable and the embedding makes signing and verification total. -/
def hmacSha512 (key msg : List Nat) : List Nat :=
  let k0 := if 128 < key.length then sha512 key else key
  let k1 := k0 ++ List.replicate (128 - k0.length) 0
  let ipadded := k1.map (fun b => b ^^^ 0x36)
  let opadded := k1.map (fun b => b ^^^ 0x5c)
  sha512 (opadded ++ sha512 (ipadded ++ msg))

/-- The character of the standard base64 alphabet at index `v`. -/
def b64Char (v : Nat) : Char :=
  if v < 26 then Char.ofNat (65 + v)
  else if v < 52 then Char.ofNat (97 + (v - 26))
  else if v < 62 then Char.ofNat (48 + (v - 52))
  else if v = 62 then '+'
  else '/'

/-- The index of a character in the standard base64 alphabet, if any. -/
def b64CharVal (c : Char) : Option Nat :=
  if 'A' ≤ c ∧ c ≤ 'Z' then some (c.toNat - 65)
  else if 'a' ≤ c ∧ c ≤ 'z' then some (c.toNat - 97 + 26)
  else if '0' ≤ c ∧ c ≤ '9' then some (c.toNat - 48 + 52)
  else if c = '+' then some 62
  else if c = '/' then some 63
  else none

/-- Standard base64 encoding with padding, three bytes per four characters. -/
def b64Encode : List Nat → List Char
  | [] => []
  | [a] => [b64Char (a / 4), b64Char (a % 4 * 16), '=', '=']
  | [a, b] => [b64Char (a / 4), b64Char (a % 4 * 16 + b / 16), b64Char (b % 16 * 4), '=']
  | a :: b :: c :: rest =>
      b64Char (a / 4) :: b64Char (a % 4 * 16 + b / 16) ::
      b64Char (b % 16 * 4 + c / 64) :: b64Char (c % 64) :: b64Encode rest

/-- Decode the final base64 quartet, which alone may carry `=` padding. -/
def b64DecodeLast (c1 c2 c3 c4 : Char) : Option (List Nat) :=
  match b64CharVal c1, b64CharVal c2 with
  | some v1, some v2 =>
    if c3 = '=' then
      if c4 = '=' then
        if v2 % 16 = 0 then some [v1 * 4 + v2 / 16] else none
      else none
    else
      match b64CharVal c3 with
      | some v3 =>
        if c4 = '=' then
          if v3 % 4 = 0 then some [v1 * 4 + v2 / 16, v2 % 16 * 16 + v3 / 4] else none
        else
          match b64CharVal c4 with
          | some v4 => some [v1 * 4 + v2 / 16, v2 % 16 * 16 + v3 / 4, v3 % 4 * 64 + v4]
          | none => none
      | none => none
  | _, _ => none

/-- Canonical base64 decoding; `none` models a `base64::DecodeError`. -/
def b64Decode : List Char → Option (List Nat)
  | [] => some []
  | c1 :: c2 :: c3 :: c4 :: rest =>
    match rest with
    | [] => b64DecodeLast c1 c2 c3 c4
    | _ :: _ =>
      match b64CharVal c1, b64CharVal c2, b64CharVal c3, b64CharVal c4 with
      | some v1, some v2, some v3, some v4 =>
        (b64Decode rest).map
          (fun bs => (v1 * 4 + v2 / 16) :: (v2 % 16 * 16 + v3 / 4) :: (v3 % 4 * 64 + v4) :: bs)
      | _, _, _, _ => none
  | _ => none

/-- The UTF-8 bytes of one character. -/
def charUtf8 (c : Char) : List Nat :=
  let n := c.toNat
  if n < 0x80 then [n]
  else if n < 0x800 then [0xC0 + n / 64, 0x80 + n % 64]
  else if n < 0x10000 then [0xE0 + n / 4096, 0x80 + n / 64 % 64, 0x80 + n % 64]
  else [0xF0 + n / 262144, 0x80 + n / 4096 % 64, 0x80 + n / 64 % 64, 0x80 + n % 64]

/-- The UTF-8 bytes of a string (`String::into_bytes`). -/
def strToUtf8 : List Char → List Nat
  | [] => []
  | c :: cs => charUtf8 c ++ strToUtf8 cs

/-- Continue a two-byte UTF-8 sequence begun by `b`: one continuation byte,
no overlong form. -/
def utf8Two (b : Nat) : List Nat → Option (Nat × List Nat)
  | b1 :: rest1 =>
    if 0x80 ≤ b1 ∧ b1 < 0xC0 then
      let cp := (b - 0xC0) * 64 + (b1 - 0x80)
      if cp < 0x80 then none else some (cp, rest1)
    else none
  | [] => none

/-- Continue a three-byte UTF-8 sequence begun by `b`: two continuation
bytes, no overlong form, no surrogate. -/
def utf8Three (b : Nat) : List Nat → Option (Nat × List Nat)
  | b1 :: b2 :: rest2 =>
    if (0x80 ≤ b1 ∧ b1 < 0xC0) ∧ (0x80 ≤ b2 ∧ b2 < 0xC0) then
      let cp := (b - 0xE0) * 4096 + (b1 - 0x80) * 64 + (b2 - 0x80)
      if cp < 0x800 then none
      else if 0xD800 ≤ cp ∧ cp < 0xE000 then none
      else some (cp, rest2)
    else none
  | _ => none

/-- Continue a four-byte UTF-8 sequence begun by `b`: three continuation
bytes, no overlong form, nothing above `0x10FFFF`. -/
def utf8Four (b : Nat) : List Nat → Option (Nat × List Nat)
  | b1 :: b2 :: b3 :: rest3 =>
    if (0x80 ≤ b1 ∧ b1 < 0xC0) ∧ (0x80 ≤ b2 ∧ b2 < 0xC0) ∧ (0x80 ≤ b3 ∧ b3 < 0xC0) then
      let cp := (b - 0xF0) * 262144 + (b1 - 0x80) * 4096 + (b2 - 0x80) * 64 + (b3 - 0x80)
      if cp < 0x10000 then none
      else if 0x110000 ≤ cp then none
      else some (cp, rest3)
    else none
  | _ => none

/-- Decode one UTF-8 code point, returning it with the remaining bytes. -/
def utf8DecodeOne : List Nat → Option (Nat × List Nat)
  | [] => none
  | b :: rest =>
    if b < 0x80 then some (b, rest)
    else if b < 0xC0 then none
    else if b < 0xE0 then utf8Two b rest
    else if b < 0xF0 then utf8Three b rest
    else if b < 0xF5 then utf8Four b rest
    else none

/-- Fueled UTF-8 decoding loop; each code point consumes at least one byte,
so fuel equal to the byte count suffices. -/
def utf8DecodeAux : Nat → List Nat → Option (List Char)
  | _, [] => some []
  | 0, _ :: _ => none
  | fuel + 1, b :: rest =>
    match utf8DecodeOne (b :: rest) with
    | none => none
    | some (cp, remaining) => (utf8DecodeAux fuel remaining).map (fun cs => Char.ofNat cp :: cs)

/-- Strict UTF-8 decoding of a byte list (`String::from_utf8`);
`none` models a `FromUtf8Error`. -/
def utf8Decode (bs : List Nat) : Option (List Char) := utf8DecodeAux bs.length bs

/-- Little-endian decimal digits of `n`, with `fuel ≥ n` for structural
recursion; agrees with `Nat.digits 10`. -/
def digitsRevAux : Nat → Nat → List Nat
  | _, 0 => []
  | 0, _ + 1 => []
  | fuel + 1, n + 1 => ((n + 1) % 10) :: digitsRevAux fuel ((n + 1) / 10)

/-- The decimal representation of a `u64` value (`u64::to_string`). -/
def natToDecimal (n : Nat) : List Char :=
  if n = 0 then ['0']
  else ((digitsRevAux n n).map (fun d => Char.ofNat (48 + d))).reverse

/-- The decimal representation of an `i64` value (`i64::to_string`). -/
def intToDecimal (x : Int) : List Char :=
  if x < 0 then '-' :: natToDecimal x.natAbs else natToDecimal x.toNat

/-- The value of a decimal digit character, if it is one. -/
def digitVal (c : Char) : Option Nat :=
  if '0' ≤ c ∧ c ≤ '9' then some (c.toNat - 48) else none

/-- Digit-by-digit accumulation of `str::parse::<u64>`, rejecting
any intermediate value at or above `2 ^ 64`. -/
def parseU64Go : List Char → Nat → Option Nat
  | [], acc => some acc
  | c :: rest, acc =>
    match digitVal c with
    | some d =>
      if acc * 10 + d < 18446744073709551616 then parseU64Go rest (acc * 10 + d) else none
    | none => none

/-- `str::parse::<u64>`: an optional leading `+`, then one or more decimal
digits, value below `2 ^ 64`. -/
def parseU64 (cs : List Char) : Option Nat :=
  match cs with
  | [] => none
  | c :: rest =>
    if c = '+' then (if rest = [] then none else parseU64Go rest 0)
    else parseU64Go (c :: rest) 0

/-- The most-significant-digit-first value of a digit list. -/
def valMSB : List Nat → Nat → Nat
  | [], acc => acc
  | d :: ds, acc => valMSB ds (acc * 10 + d)

/-- `i64::to_be_bytes`: the eight big-endian bytes of the two's-complement
representation of `x`. -/
def i64ToBeBytes (x : Int) : List Nat :=
  let u := (x % 18446744073709551616).toNat
  [u / 2 ^ 56 % 256, u / 2 ^ 48 % 256, u / 2 ^ 40 % 256, u / 2 ^ 32 % 256,
   u / 2 ^ 24 % 256, u / 2 ^ 16 % 256, u / 2 ^ 8 % 256, u % 256]

/-- `i64::from_be_bytes`: reassemble the unsigned value big-endian and
reinterpret it in two's complement. -/
def beBytesToI64 (bs : List Nat) : Int :=
  let u : Nat := bs.foldl (fun acc b => acc * 256 + b) 0
  if u < 9223372036854775808 then (u : Int) else (u : Int) - 18446744073709551616

/-- `str::split('.')` on a character list: the list of dot-free segments,
with empty segments preserved (`Split` never yields an empty list). -/
def splitDot : List Char → List (List Char)
  | [] => [[]]
  | c :: rest =>
    if c = '.' then [] :: splitDot rest
    else
      match splitDot rest with
      | [] => [[c]]
      | h :: t => (c :: h) :: t

/-- The error enumeration `TokenError` of `token.rs`. -/
inductive TokenError where
  | HmacGeneration
  | HmacDecoding
  | HmacVerification
  | UserIdBase64Decoding
  | UserIdUtf8Decoding
  | UserIdParsing
  | GenerationTimeDecoding
  | InvalidFormat
  | InvalidToken
  | MissingAuthorizationHeader
  | InvalidAuthorizationHeader
  | InvalidAuthorizationHeaderFormat
deriving DecidableEq, Repr

/-- The display message of each `TokenError`, from its
`#[error("...")]` attribute. -/
def TokenError.message : TokenError → String
  | .HmacGeneration => "Failed to generate HMAC for token."
  | .HmacDecoding => "Failed to decode HMAC for token."
  | .HmacVerification => "Failed to verify HMAC for token."
  | .UserIdBase64Decoding => "Failed to decode user ID from token."
  | .UserIdUtf8Decoding => "Failed to decode user ID from token."
  | .UserIdParsing => "Failed to parse user ID from token."
  | .GenerationTimeDecoding => "Failed to decode generation time from token."
  | .InvalidFormat => "Invalid token format."
  | .InvalidToken => "Invalid token."
  | .MissingAuthorizationHeader => "Missing authorization header."
  | .InvalidAuthorizationHeader => "Invalid authorization header."
  | .InvalidAuthorizationHeaderFormat => "Invalid authorization header format."

/-- The `AuthenticationToken` record: `user_id: u64` as a `Nat`,
`generation_time: i64` (milliseconds since `FIRST_EPOCH`) as an `Int`,
`hmac: Vec<u8>` as a byte list. -/
structure AuthenticationToken where
  user_id : Nat
  generation_time : Int
  hmac : List Nat
deriving DecidableEq, Repr

/-- The outcome of an operation that can also panic
(`copy_from_slice` aborts on a length mismatch). -/
inductive PanicOr (α : Type) where
  | panicked : PanicOr α
  | err : TokenError → PanicOr α
  | ok : α → PanicOr α
deriving DecidableEq, Repr

/-- The canonical string `"{user_id}.{generation_time}"` that is fed to
the HMAC, both when signing (`update_secure_parts`) and when verifying. -/
def canonicalString (uid : Nat) (gen : Int) : List Char :=
  natToDecimal uid ++ '.' :: intToDecimal gen

/-- The UTF-8 bytes of the canonical string. -/
def canonicalBytes (uid : Nat) (gen : Int) : List Nat :=
  strToUtf8 (canonicalString uid gen)

/-- `AuthenticationToken::new` / `update_secure_parts`: set
`generation_time` to the current offset from `FIRST_EPOCH` in milliseconds
and the `hmac` field to the HMAC-SHA-512 of the canonical string under the
secret key. -/
def newToken (key : List Nat) (now : Int) (uid : Nat) : AuthenticationToken :=
  { user_id := uid
    generation_time := now
    hmac := hmacSha512 key (canonicalBytes uid now) }

/-- `AuthenticationToken::verify`: recompute the HMAC of the canonical
string and compare it with the stored `hmac` field (`Mac::verify_slice`
compares the full tags, so it is equality of the byte sequences). -/
def verify (key : List Nat) (t : AuthenticationToken) : Except TokenError Unit :=
  if hmacSha512 key (canonicalBytes t.user_id t.generation_time) = t.hmac then
    Except.ok ()
  else
    Except.error TokenError.HmacVerification

/-- `AuthenticationToken::expired`: true when the current offset from the
epoch minus `generation_time` exceeds `TOKEN_EXPIRATION_TIME * 1000`
(the window is configured in seconds, times are in milliseconds). -/
def expired (expirationTime : Int) (now : Int) (t : AuthenticationToken) : Bool :=
  decide (now - t.generation_time > expirationTime * 1000)

/-- Modelled from the spec: `AuthenticationToken::refresh` is called by
`routes/auth.rs::get_login` but its definition is not part of the sources;
per the spec (section 4.2) it re-signs for the same `user_id` with a fresh
`issued_at = now`. -/
def refresh (key : List Nat) (now : Int) (t : AuthenticationToken) : AuthenticationToken :=
  newToken key now t.user_id

/-- The user-id block of `from_token`: base64-decode segment 0, decode the
bytes as UTF-8, and parse the text as a `u64`. -/
def decodeUserId (c : List Char) : Except TokenError Nat :=
  match b64Decode c with
  | none => Except.error TokenError.UserIdBase64Decoding
  | some bytes =>
    match utf8Decode bytes with
    | none => Except.error TokenError.UserIdUtf8Decoding
    | some text =>
      match parseU64 text with
      | none => Except.error TokenError.UserIdParsing
      | some uid => Except.ok uid

/-- The generation-time block of `from_token`: base64-decode segment 1 and
copy the bytes into a fixed `[u8; 8]` buffer with `copy_from_slice`, which
panics unless exactly 8 bytes were decoded, then reassemble big-endian. -/
def decodeGenerationTime (c : List Char) : PanicOr Int :=
  match b64Decode c with
  | none => PanicOr.err TokenError.GenerationTimeDecoding
  | some bytes =>
    if bytes.length = 8 then PanicOr.ok (beBytesToI64 bytes)
    else PanicOr.panicked

/-- The HMAC block of `from_token`: base64-decode segment 2. -/
def decodeHmacSeg (c : List Char) : Except TokenError (List Nat) :=
  match b64Decode c with
  | none => Except.error TokenError.HmacDecoding
  | some bytes => Except.ok bytes

/-- `AuthenticationToken::from_token`: split on `'.'`, require at least
three components, decode user id, generation time and HMAC from the first
three, then verify the assembled token before returning it. -/
def from_token (key : List Nat) (s : List Char) : PanicOr AuthenticationToken :=
  match splitDot s with
  | c0 :: c1 :: c2 :: _ =>
    match decodeUserId c0 with
    | Except.error e => PanicOr.err e
    | Except.ok uid =>
      match decodeGenerationTime c1 with
      | PanicOr.panicked => PanicOr.panicked
      | PanicOr.err e => PanicOr.err e
      | PanicOr.ok gen =>
        match decodeHmacSeg c2 with
        | Except.error e => PanicOr.err e
        | Except.ok mac =>
          let t : AuthenticationToken := ⟨uid, gen, mac⟩
          match verify key t with
          | Except.ok _ => PanicOr.ok t
          | Except.error e => PanicOr.err e
  | _ => PanicOr.err TokenError.InvalidFormat

/-- `impl From<AuthenticationToken> for String`: base64 of the decimal
user id, of the big-endian generation time, and of the HMAC, joined
with dots. -/
def tokenToString (t : AuthenticationToken) : List Char :=
  b64Encode (strToUtf8 (natToDecimal t.user_id)) ++
  '.' :: (b64Encode (i64ToBeBytes t.generation_time) ++
  '.' :: b64Encode t.hmac)

/-- `HeaderValue::to_str`: succeeds exactly when every byte is visible
ASCII (32–126) or horizontal tab, and then yields those bytes as
characters. -/
def headerToStr (bs : List Nat) : Option (List Char) :=
  if bs.all (fun b => (32 ≤ b && b < 127) || b == 9) then
    some (bs.map Char.ofNat)
  else none

/-- `str::starts_with("Bearer ")`. -/
def startsBearer : List Char → Bool
  | 'B' :: 'e' :: 'a' :: 'r' :: 'e' :: 'r' :: ' ' :: _ => true
  | _ => false

/-- `str::trim_start_matches("Bearer ")`: remove every consecutive
leading occurrence of the pattern, not only the first. -/
def trimBearer : List Char → List Char
  | 'B' :: 'e' :: 'a' :: 'r' :: 'e' :: 'r' :: ' ' :: rest => trimBearer rest
  | cs => cs

/-- `AuthenticationToken::from_headers`: the `Authorization` header value
(or its absence) is the `Option (List Nat)` argument.  Missing header,
non-`to_str`-able bytes, and a missing `"Bearer "` prefix each yield their
error; otherwise the header text with all leading `"Bearer "` repetitions
trimmed is passed to `from_token`. -/
def from_headers (key : List Nat) (auth : Option (List Nat)) : PanicOr AuthenticationToken :=
  match auth with
  | none => PanicOr.err TokenError.MissingAuthorizationHeader
  | some bs =>
    match headerToStr bs with
    | none => PanicOr.err TokenError.InvalidAuthorizationHeader
    | some cs =>
      if startsBearer cs then from_token key (trimBearer cs)
      else PanicOr.err TokenError.InvalidAuthorizationHeaderFormat

/-- The secret key configured by the module's test setup
(`HMAC_SECURITY_KEY = "TODO: secret key"`), used to instantiate
statements at concrete inputs. -/
def testKey : List Nat := strToUtf8 "TODO: secret key".toList

instance {ε α : Type} [DecidableEq ε] [DecidableEq α] : DecidableEq (Except ε α) := fun x y =>
  match x, y with
  | Except.ok a, Except.ok b =>
    if h : a = b then isTrue (by rw [h]) else isFalse (fun hc => h (by injection hc))
  | Except.error a, Except.error b =>
    if h : a = b then isTrue (by rw [h]) else isFalse (fun hc => h (by injection hc))
  | Except.ok _, Except.error _ => isFalse (fun hc => by injection hc)
  | Except.error _, Except.ok _ => isFalse (fun hc => by injection hc)

/-! ### Lemmas and theorems -/

theorem w8bytes_length (w : Nat) : (w8bytes w).length = 8 := by
  simp [w8bytes]

theorem sha512_length (msg : List Nat) : (sha512 msg).length = 64 := by
  simp [sha512, hashBytes, w8bytes_length]

theorem sha512_mem_lt {msg : List Nat} {b : Nat} (h : b ∈ sha512 msg) : b < 256 := by
  simp only [sha512, hashBytes, w8bytes, List.mem_append, List.mem_cons,
    List.not_mem_nil, or_false] at h
  omega

theorem hmacSha512_length (key msg : List Nat) : (hmacSha512 key msg).length = 64 := by
  simp [hmacSha512, sha512_length]

theorem hmacSha512_ne_nil (key msg : List Nat) : hmacSha512 key msg ≠ [] := by
  intro h
  have := hmacSha512_length key msg
  rw [h] at this
  simp at this

theorem hmacSha512_mem_lt {key msg : List Nat} {b : Nat}
    (h : b ∈ hmacSha512 key msg) : b < 256 := by
  simp only [hmacSha512] at h
  exact sha512_mem_lt h

theorem b64CharVal_b64Char_all : ∀ v < 64, b64CharVal (b64Char v) = some v := by
  decide

theorem b64Char_ne_eq_all : ∀ v < 64, b64Char v ≠ '=' := by
  decide

theorem b64Char_ne_dot_all : ∀ v < 64, b64Char v ≠ '.' := by
  decide

theorem b64CharVal_b64Char {v : Nat} (h : v < 64) : b64CharVal (b64Char v) = some v :=
  b64CharVal_b64Char_all v h

theorem b64Char_ne_eq {v : Nat} (h : v < 64) : b64Char v ≠ '=' :=
  b64Char_ne_eq_all v h

theorem b64Char_ne_dot {v : Nat} (h : v < 64) : b64Char v ≠ '.' :=
  b64Char_ne_dot_all v h

theorem b64Encode_eq_nil_iff (bs : List Nat) : b64Encode bs = [] ↔ bs = [] := by
  constructor
  · intro h
    match bs with
    | [] => rfl
    | [a] => simp [b64Encode] at h
    | [a, b] => simp [b64Encode] at h
    | a :: b :: c :: rest => simp [b64Encode] at h
  · intro h; subst h; rfl

theorem b64Encode_not_dot_mem {bs : List Nat} (hb : ∀ b ∈ bs, b < 256) :
    '.' ∉ b64Encode bs := by
  induction bs using b64Encode.induct with
  | case1 => simp [b64Encode]
  | case2 a =>
    have ha : a < 256 := hb a (by simp)
    simp only [b64Encode, List.mem_cons, List.not_mem_nil, or_false]
    push_neg
    refine ⟨?_, ?_, by decide, by decide⟩
    · exact fun h => b64Char_ne_dot (by omega) h.symm
    · exact fun h => b64Char_ne_dot (by omega) h.symm
  | case3 a b =>
    have ha : a < 256 := hb a (by simp)
    have hbb : b < 256 := hb b (by simp)
    simp only [b64Encode, List.mem_cons, List.not_mem_nil, or_false]
    push_neg
    refine ⟨?_, ?_, ?_, by decide⟩
    · exact fun h => b64Char_ne_dot (by omega) h.symm
    · exact fun h => b64Char_ne_dot (by omega) h.symm
    · exact fun h => b64Char_ne_dot (by omega) h.symm
  | case4 a b c rest ih =>
    have ha : a < 256 := hb a (by simp)
    have hbb : b < 256 := hb b (by simp)
    have hc : c < 256 := hb c (by simp)
    have hrest : ∀ x ∈ rest, x < 256 := fun x hx => hb x (by simp [hx])
    simp only [b64Encode, List.mem_cons]
    push_neg
    refine ⟨?_, ?_, ?_, ?_, ih hrest⟩
    · exact fun h => b64Char_ne_dot (by omega) h.symm
    · exact fun h => b64Char_ne_dot (by omega) h.symm
    · exact fun h => b64Char_ne_dot (by omega) h.symm
    · exact fun h => b64Char_ne_dot (by omega) h.symm

/-- Encoding then decoding base64 is the identity on byte lists. -/
theorem b64Decode_b64Encode {bs : List Nat} (hb : ∀ b ∈ bs, b < 256) :
    b64Decode (b64Encode bs) = some bs := by
  induction bs using b64Encode.induct with
  | case1 => rfl
  | case2 a =>
    have ha : a < 256 := hb a (by simp)
    have h1 : a / 4 < 64 := by omega
    have h2 : a % 4 * 16 < 64 := by omega
    simp only [b64Encode, b64Decode, b64DecodeLast, b64CharVal_b64Char h1,
      b64CharVal_b64Char h2, if_true]
    rw [if_pos (by omega)]
    congr 2
    omega
  | case3 a b =>
    have ha : a < 256 := hb a (by simp)
    have hbb : b < 256 := hb b (by simp)
    have h1 : a / 4 < 64 := by omega
    have h2 : a % 4 * 16 + b / 16 < 64 := by omega
    have h3 : b % 16 * 4 < 64 := by omega
    simp only [b64Encode, b64Decode, b64DecodeLast, b64CharVal_b64Char h1,
      b64CharVal_b64Char h2]
    rw [if_neg (b64Char_ne_eq h3)]
    simp only [b64CharVal_b64Char h3, if_true]
    rw [if_pos (by omega)]
    congr 3 <;> omega
  | case4 a b c rest ih =>
    have ha : a < 256 := hb a (by simp)
    have hbb : b < 256 := hb b (by simp)
    have hc : c < 256 := hb c (by simp)
    have hrest : ∀ x ∈ rest, x < 256 := fun x hx => hb x (by simp [hx])
    have h1 : a / 4 < 64 := by omega
    have h2 : a % 4 * 16 + b / 16 < 64 := by omega
    have h3 : b % 16 * 4 + c / 64 < 64 := by omega
    have h4 : c % 64 < 64 := by omega
    by_cases hr : rest = []
    · subst hr
      simp only [b64Encode, b64Decode, b64DecodeLast, b64CharVal_b64Char h1,
        b64CharVal_b64Char h2]
      rw [if_neg (b64Char_ne_eq h3)]
      simp only [b64CharVal_b64Char h3]
      rw [if_neg (b64Char_ne_eq h4)]
      simp only [b64CharVal_b64Char h4]
      congr 4 <;> omega
    · have henc : b64Encode rest ≠ [] := fun h => hr ((b64Encode_eq_nil_iff rest).mp h)
      obtain ⟨e, es, hm⟩ : ∃ e es, b64Encode rest = e :: es := by
        cases hmm : b64Encode rest with
        | nil => exact absurd hmm henc
        | cons e es => exact ⟨e, es, rfl⟩
      simp only [b64Encode, hm]
      simp only [b64Decode, b64CharVal_b64Char h1, b64CharVal_b64Char h2,
        b64CharVal_b64Char h3, b64CharVal_b64Char h4]
      rw [hm] at ih
      rw [ih hrest]
      simp only [Option.map_some']
      congr 4 <;> omega

theorem charUtf8_ascii {c : Char} (h : c.toNat < 128) : charUtf8 c = [c.toNat] := by
  simp [charUtf8, h]

theorem strToUtf8_ascii {cs : List Char} (h : ∀ c ∈ cs, c.toNat < 128) :
    strToUtf8 cs = cs.map Char.toNat := by
  induction cs with
  | nil => rfl
  | cons c cs ih =>
    simp only [strToUtf8, List.map_cons, charUtf8_ascii (h c (by simp))]
    rw [ih (fun x hx => h x (by simp [hx]))]
    rfl

theorem utf8DecodeOne_ascii {b : Nat} (hb : b < 128) (rest : List Nat) :
    utf8DecodeOne (b :: rest) = some (b, rest) := by
  simp [utf8DecodeOne, hb]

theorem utf8DecodeAux_ascii :
    ∀ fuel (cs : List Char), (∀ c ∈ cs, c.toNat < 128) → cs.length ≤ fuel →
      utf8DecodeAux fuel (cs.map Char.toNat) = some cs := by
  intro fuel
  induction fuel with
  | zero =>
    intro cs _ hlen
    have : cs = [] := List.length_eq_zero.mp (Nat.le_zero.mp hlen)
    subst this; rfl
  | succ fuel ih =>
    intro cs h hlen
    match cs with
    | [] => rfl
    | c :: cs =>
      have hc : c.toNat < 128 := h c (by simp)
      simp only [List.map_cons, utf8DecodeAux, utf8DecodeOne_ascii hc]
      rw [ih cs (fun x hx => h x (by simp [hx])) (by simpa using Nat.lt_succ_iff.mp hlen)]
      simp [Char.ofNat_toNat]

theorem utf8Decode_ascii {cs : List Char} (h : ∀ c ∈ cs, c.toNat < 128) :
    utf8Decode (cs.map Char.toNat) = some cs := by
  unfold utf8Decode
  exact utf8DecodeAux_ascii _ cs h (by simp)

theorem digitsRevAux_eq_digits : ∀ fuel n, n ≤ fuel → digitsRevAux fuel n = Nat.digits 10 n := by
  intro fuel
  induction fuel with
  | zero => intro n hn; interval_cases n; simp [digitsRevAux]
  | succ fuel ih =>
    intro n hn
    match n with
    | 0 => simp [digitsRevAux]
    | m + 1 =>
      rw [digitsRevAux, Nat.digits_def' (by norm_num : 1 < 10) (Nat.succ_pos m)]
      congr 1
      exact ih _ (by omega)

theorem valMSB_le : ∀ ds acc, acc ≤ valMSB ds acc := by
  intro ds
  induction ds with
  | nil => intro acc; exact Nat.le_refl acc
  | cons d ds ih => intro acc; exact le_trans (by omega) (ih (acc * 10 + d))

theorem valMSB_append_single : ∀ ds d acc, valMSB (ds ++ [d]) acc = valMSB ds acc * 10 + d := by
  intro ds
  induction ds with
  | nil => intro d acc; rfl
  | cons e es ih =>
    intro d acc
    simp only [List.cons_append, valMSB]
    exact ih d (acc * 10 + e)

theorem valMSB_reverse_eq_ofDigits :
    ∀ ds acc, valMSB ds.reverse acc = acc * 10 ^ ds.length + Nat.ofDigits 10 ds := by
  intro ds
  induction ds with
  | nil => intro acc; simp [valMSB, Nat.ofDigits]
  | cons d ds ih =>
    intro acc
    simp only [List.reverse_cons, valMSB_append_single, ih, Nat.ofDigits_cons, List.length_cons]
    ring

theorem digitVal_ofNat_all : ∀ d < 10, digitVal (Char.ofNat (48 + d)) = some d := by
  decide

theorem digitChar_toNat_lt_all : ∀ d < 10, (Char.ofNat (48 + d)).toNat < 128 := by
  decide

theorem digitChar_ne_plus_all : ∀ d < 10, Char.ofNat (48 + d) ≠ '+' := by
  decide

theorem parseU64Go_digits :
    ∀ ds acc, (∀ d ∈ ds, d < 10) → valMSB ds acc < 18446744073709551616 →
      parseU64Go (ds.map (fun d => Char.ofNat (48 + d))) acc = some (valMSB ds acc) := by
  intro ds
  induction ds with
  | nil => intro acc _ _; rfl
  | cons d ds ih =>
    intro acc hd hbound
    have hd0 : d < 10 := hd d (by simp)
    have hstep : acc * 10 + d < 18446744073709551616 :=
      lt_of_le_of_lt (valMSB_le ds (acc * 10 + d)) hbound
    simp only [List.map_cons, parseU64Go, digitVal_ofNat_all d hd0, if_pos hstep]
    exact ih (acc * 10 + d) (fun x hx => hd x (by simp [hx])) hbound

theorem natToDecimal_ascii {n : Nat} : ∀ c ∈ natToDecimal n, c.toNat < 128 := by
  intro c hc
  by_cases hn : n = 0
  · subst hn
    simp only [natToDecimal, if_pos] at hc
    simp only [List.mem_singleton] at hc
    subst hc; decide
  · simp only [natToDecimal, if_neg hn, List.mem_reverse, List.mem_map] at hc
    obtain ⟨d, hd, rfl⟩ := hc
    rw [digitsRevAux_eq_digits n n (Nat.le_refl n)] at hd
    exact digitChar_toNat_lt_all d (Nat.digits_lt_base (by norm_num) hd)

/-- Parsing recovers every `u64` value from its decimal string. -/
theorem parseU64_natToDecimal {n : Nat} (h : n < 18446744073709551616) :
    parseU64 (natToDecimal n) = some n := by
  by_cases hn : n = 0
  · subst hn; decide
  · have hdig := digitsRevAux_eq_digits n n (Nat.le_refl n)
    have hlt : ∀ d ∈ Nat.digits 10 n, d < 10 :=
      fun d hd => Nat.digits_lt_base (by norm_num) hd
    have hne : Nat.digits 10 n ≠ [] := Nat.digits_ne_nil_iff_ne_zero.mpr hn
    have hval : valMSB (Nat.digits 10 n).reverse 0 = n := by
      rw [valMSB_reverse_eq_ofDigits]
      simp [Nat.ofDigits_digits]
    have hmap : natToDecimal n
        = ((Nat.digits 10 n).reverse).map (fun d => Char.ofNat (48 + d)) := by
      simp [natToDecimal, hn, hdig, List.map_reverse]
    obtain ⟨d, ds, hds⟩ : ∃ d ds, (Nat.digits 10 n).reverse = d :: ds := by
      cases hr : (Nat.digits 10 n).reverse with
      | nil => exact absurd (by simpa using congrArg List.reverse hr) hne
      | cons d ds => exact ⟨d, ds, rfl⟩
    have hd10 : d < 10 := hlt d (by
      have : d ∈ (Nat.digits 10 n).reverse := by rw [hds]; simp
      simpa using this)
    rw [hmap, hds]
    simp only [List.map_cons, parseU64]
    rw [if_neg (digitChar_ne_plus_all d hd10)]
    have := parseU64Go_digits (d :: ds) 0
      (by intro x hx; apply hlt; rw [← List.mem_reverse, hds]; exact hx)
      (by rw [← hds, hval]; exact h)
    simp only [List.map_cons] at this
    rw [this, ← hds, hval]

theorem i64ToBeBytes_length (x : Int) : (i64ToBeBytes x).length = 8 := rfl

theorem i64ToBeBytes_mem_lt {x : Int} {b : Nat} (h : b ∈ i64ToBeBytes x) : b < 256 := by
  simp only [i64ToBeBytes, List.mem_cons, List.not_mem_nil, or_false] at h
  omega

/-- Serializing and reassembling is the identity on the `i64` range. -/
theorem beBytesToI64_i64ToBeBytes {x : Int}
    (hlo : -9223372036854775808 ≤ x) (hhi : x < 9223372036854775808) :
    beBytesToI64 (i64ToBeBytes x) = x := by
  have hmod : 0 ≤ x % 18446744073709551616 := Int.emod_nonneg x (by norm_num)
  have hval : ((x % 18446744073709551616).toNat : Int) = x % 18446744073709551616 :=
    Int.toNat_of_nonneg hmod
  simp only [i64ToBeBytes, beBytesToI64, List.foldl]
  generalize hg : (x % 18446744073709551616).toNat = u at hval
  have hult : u < 18446744073709551616 := by omega
  have hfold :
      (((((((0 * 256 + u / 2 ^ 56 % 256) * 256 + u / 2 ^ 48 % 256) * 256 + u / 2 ^ 40 % 256) *
        256 + u / 2 ^ 32 % 256) * 256 + u / 2 ^ 24 % 256) * 256 + u / 2 ^ 16 % 256) * 256 +
        u / 2 ^ 8 % 256) * 256 + u % 256 = u := by
    simp only [show (2 : Nat) ^ 56 = 72057594037927936 from by norm_num,
      show (2 : Nat) ^ 48 = 281474976710656 from by norm_num,
      show (2 : Nat) ^ 40 = 1099511627776 from by norm_num,
      show (2 : Nat) ^ 32 = 4294967296 from by norm_num,
      show (2 : Nat) ^ 24 = 16777216 from by norm_num,
      show (2 : Nat) ^ 16 = 65536 from by norm_num,
      show (2 : Nat) ^ 8 = 256 from by norm_num]
    omega
  rw [hfold]
  split <;> omega

theorem splitDot_ne_nil : ∀ cs, splitDot cs ≠ [] := by
  intro cs
  induction cs with
  | nil => simp [splitDot]
  | cons c rest ih =>
    rw [splitDot]
    by_cases hc : c = '.'
    · rw [if_pos hc]; simp
    · rw [if_neg hc]
      cases h : splitDot rest with
      | nil => simp
      | cons a t => simp

theorem splitDot_no_dot : ∀ cs : List Char, '.' ∉ cs → splitDot cs = [cs] := by
  intro cs
  induction cs with
  | nil => intro _; rfl
  | cons c rest ih =>
    intro h
    have hc : c ≠ '.' := fun hh => h (by simp [hh])
    have hrest : '.' ∉ rest := fun hh => h (by simp [hh])
    rw [splitDot, if_neg hc, ih hrest]

theorem splitDot_append_dot :
    ∀ a b : List Char, splitDot (a ++ '.' :: b) = splitDot a ++ splitDot b := by
  intro a
  induction a with
  | nil => intro b; simp [splitDot]
  | cons c rest ih =>
    intro b
    by_cases hc : c = '.'
    · subst hc
      simp only [List.cons_append]
      rw [splitDot, if_pos rfl, ih, splitDot, if_pos rfl]
      rfl
    · simp only [List.cons_append]
      rw [splitDot, if_neg hc, splitDot, if_neg hc, ih]
      obtain ⟨h, t, hht⟩ : ∃ h t, splitDot rest = h :: t := by
        cases hs : splitDot rest with
        | nil => exact absurd hs (splitDot_ne_nil rest)
        | cons h t => exact ⟨h, t, rfl⟩
      rw [hht]
      simp

theorem strToUtf8_ascii_mem_lt {cs : List Char} (h : ∀ c ∈ cs, c.toNat < 128) :
    ∀ b ∈ strToUtf8 cs, b < 256 := by
  rw [strToUtf8_ascii h]
  intro b hb
  obtain ⟨c, hc, rfl⟩ := List.mem_map.mp hb
  exact lt_trans (h c hc) (by norm_num)

theorem decodeUserId_encode {uid : Nat} (huid : uid < 18446744073709551616) :
    decodeUserId (b64Encode (strToUtf8 (natToDecimal uid))) = Except.ok uid := by
  have h1 : b64Decode (b64Encode (strToUtf8 (natToDecimal uid)))
      = some (strToUtf8 (natToDecimal uid)) :=
    b64Decode_b64Encode (strToUtf8_ascii_mem_lt natToDecimal_ascii)
  have h2 : utf8Decode (strToUtf8 (natToDecimal uid)) = some (natToDecimal uid) := by
    rw [strToUtf8_ascii natToDecimal_ascii]
    exact utf8Decode_ascii natToDecimal_ascii
  simp only [decodeUserId, h1, h2, parseU64_natToDecimal huid]

theorem decodeGenerationTime_encode {gen : Int}
    (hlo : -9223372036854775808 ≤ gen) (hhi : gen < 9223372036854775808) :
    decodeGenerationTime (b64Encode (i64ToBeBytes gen)) = PanicOr.ok gen := by
  simp only [decodeGenerationTime, b64Decode_b64Encode (fun b hb => i64ToBeBytes_mem_lt hb),
    i64ToBeBytes_length, beBytesToI64_i64ToBeBytes hlo hhi, if_true]

theorem decodeHmacSeg_encode {mac : List Nat} (hmac : ∀ b ∈ mac, b < 256) :
    decodeHmacSeg (b64Encode mac) = Except.ok mac := by
  simp only [decodeHmacSeg, b64Decode_b64Encode hmac]

theorem splitDot_tokenToString (t : AuthenticationToken)
    (hmac : ∀ b ∈ t.hmac, b < 256) :
    splitDot (tokenToString t) =
      [b64Encode (strToUtf8 (natToDecimal t.user_id)),
       b64Encode (i64ToBeBytes t.generation_time),
       b64Encode t.hmac] := by
  have hA : '.' ∉ b64Encode (strToUtf8 (natToDecimal t.user_id)) :=
    b64Encode_not_dot_mem (strToUtf8_ascii_mem_lt natToDecimal_ascii)
  have hB : '.' ∉ b64Encode (i64ToBeBytes t.generation_time) :=
    b64Encode_not_dot_mem (fun b hb => i64ToBeBytes_mem_lt hb)
  have hC : '.' ∉ b64Encode t.hmac := b64Encode_not_dot_mem hmac
  unfold tokenToString
  rw [splitDot_append_dot, splitDot_append_dot, splitDot_no_dot _ hA,
    splitDot_no_dot _ hB, splitDot_no_dot _ hC]
  rfl

/-- Decoding an encoded record: the shape always decodes, and the result
is the record itself exactly when the stored signature matches the
recomputed HMAC; otherwise `from_token` rejects with `HmacVerification`. -/
theorem from_token_tokenToString (key : List Nat) {uid : Nat} {gen : Int} {mac : List Nat}
    (huid : uid < 18446744073709551616)
    (hlo : -9223372036854775808 ≤ gen) (hhi : gen < 9223372036854775808)
    (hmac : ∀ b ∈ mac, b < 256) :
    from_token key (tokenToString ⟨uid, gen, mac⟩) =
      if hmacSha512 key (canonicalBytes uid gen) = mac then
        PanicOr.ok ⟨uid, gen, mac⟩
      else PanicOr.err TokenError.HmacVerification := by
  unfold from_token
  rw [splitDot_tokenToString ⟨uid, gen, mac⟩ hmac]
  simp only [decodeUserId_encode huid, decodeGenerationTime_encode hlo hhi,
    decodeHmacSeg_encode hmac, verify]
  by_cases hv : hmacSha512 key (canonicalBytes uid gen) = mac
  · rw [if_pos hv, if_pos hv]
  · rw [if_neg hv, if_neg hv]

/-! ### The claims -/

/-- C1: the spec requires a decoded timestamp segment of any length other
than 8 to be rejected with the timestamp error and `from_token` to be
panic-free; the code instead calls `copy_from_slice` into a fixed
`[u8; 8]` buffer, which panics on the length mismatch.  At the input
`"MQ==.MQ==.MQ=="` (whose second segment decodes to the single byte
`0x31`), `from_token` panics instead of returning
`GenerationTimeDecoding`. -/
theorem claim_C1_short_timestamp_panics :
    ∀ key : List Nat, from_token key "MQ==.MQ==.MQ==".toList = PanicOr.panicked := by
  intro key
  rfl

/-- C4: a record produced by `AuthenticationToken::new` stores as its
signature exactly the HMAC-SHA-512 of the canonical string
`"{user_id}.{generation_time}"` under the same key, so `verify` accepts
it. -/
theorem claim_C4_sign_then_verify (key : List Nat) (now : Int) (uid : Nat) :
    (newToken key now uid).hmac = hmacSha512 key (canonicalBytes uid now) ∧
    verify key (newToken key now uid) = Except.ok () := by
  constructor
  · rfl
  · simp [verify, newToken]

/-- C5: `expired` is true exactly when `now - generation_time` strictly
exceeds the configured window expressed in milliseconds
(`TOKEN_EXPIRATION_TIME * 1000`); a record exactly at the boundary is not
expired, and one millisecond past it is. -/
theorem claim_C5_expiration_boundary (expSec now gen : Int) (uid : Nat) (mac : List Nat) :
    (expired expSec now ⟨uid, gen, mac⟩ = true ↔ now - gen > expSec * 1000) ∧
    expired expSec now ⟨uid, now - expSec * 1000, mac⟩ = false ∧
    expired expSec now ⟨uid, now - expSec * 1000 - 1, mac⟩ = true := by
  refine ⟨?_, ?_, ?_⟩ <;> simp [expired] <;> omega

theorem from_token_short (key : List Nat) {s : List Char}
    (h : (splitDot s).length < 3) :
    from_token key s = PanicOr.err TokenError.InvalidFormat := by
  unfold from_token
  rcases hs : splitDot s with _ | ⟨a, _ | ⟨b, _ | ⟨c, r⟩⟩⟩
  · rfl
  · rfl
  · rfl
  · rw [hs] at h; simp at h; omega

theorem decodeUserId_error_cases {c : List Char} {e : TokenError}
    (h : decodeUserId c = Except.error e) :
    e = TokenError.UserIdBase64Decoding ∨ e = TokenError.UserIdUtf8Decoding ∨
      e = TokenError.UserIdParsing := by
  unfold decodeUserId at h
  split at h
  · injection h with h1; exact Or.inl h1.symm
  · split at h
    · injection h with h1; exact Or.inr (Or.inl h1.symm)
    · split at h
      · injection h with h1; exact Or.inr (Or.inr h1.symm)
      · exact absurd h (by simp)

theorem from_token_userid_error (key : List Nat) {s c0 c1 c2 : List Char}
    {rest : List (List Char)} {e : TokenError}
    (hs : splitDot s = c0 :: c1 :: c2 :: rest)
    (he : decodeUserId c0 = Except.error e) :
    from_token key s = PanicOr.err e := by
  unfold from_token
  rw [hs]
  simp only [he]

/-- C9: fewer than three dot-separated segments fail with `InvalidFormat`
(so do the spec examples `"invalid token"` and `"invalid.token"`), and a
first segment that fails base64, UTF-8, or `u64` decoding fails with the
corresponding user-id error, one of the three variants the spec groups as
`InvalidUserId` (as `"invalid.token.invalid"` does). -/
theorem claim_C9_error_taxonomy (key : List Nat) :
    (∀ s : List Char, (splitDot s).length < 3 →
      from_token key s = PanicOr.err TokenError.InvalidFormat) ∧
    (∀ (s c0 c1 c2 : List Char) (rest : List (List Char)) (e : TokenError),
      splitDot s = c0 :: c1 :: c2 :: rest → decodeUserId c0 = Except.error e →
      from_token key s = PanicOr.err e ∧
        (e = TokenError.UserIdBase64Decoding ∨ e = TokenError.UserIdUtf8Decoding ∨
         e = TokenError.UserIdParsing)) ∧
    from_token key "invalid token".toList = PanicOr.err TokenError.InvalidFormat ∧
    from_token key "invalid.token".toList = PanicOr.err TokenError.InvalidFormat ∧
    from_token key "invalid.token.invalid".toList
      = PanicOr.err TokenError.UserIdBase64Decoding := by
  refine ⟨?_, ?_, rfl, rfl, rfl⟩
  · intro s h
    exact from_token_short key h
  · intro s c0 c1 c2 rest e hs he
    exact ⟨from_token_userid_error key hs he, decodeUserId_error_cases he⟩

/-- C9 witness: the first part of the taxonomy applied at the concrete
input `"xy"`, which splits into a single segment. -/
theorem claim_C9_error_taxonomy_witness :
    (splitDot "xy".toList).length < 3 ∧
    from_token testKey "xy".toList = PanicOr.err TokenError.InvalidFormat :=
  ⟨by decide, (claim_C9_error_taxonomy testKey).1 "xy".toList (by decide)⟩

/-- C10: `from_token` inspects only the first three dot-separated
segments: appending `"." ++ suffix` to any input that already has at least
three segments leaves the result unchanged, so extra segments after a
valid token are ignored and the token still decodes and verifies. -/
theorem claim_C10_extra_segments_ignored (key : List Nat) (t suffix : List Char)
    (h : 3 ≤ (splitDot t).length) :
    from_token key (t ++ '.' :: suffix) = from_token key t := by
  obtain ⟨c0, c1, c2, rest, hs⟩ : ∃ c0 c1 c2 rest, splitDot t = c0 :: c1 :: c2 :: rest := by
    rcases hs : splitDot t with _ | ⟨a, _ | ⟨b, _ | ⟨c, r⟩⟩⟩
    · rw [hs] at h; simp at h
    · rw [hs] at h; simp at h
    · rw [hs] at h; simp at h
    · exact ⟨a, b, c, r, rfl⟩
  unfold from_token
  rw [splitDot_append_dot, hs]
  simp only [List.cons_append]

/-- C10 witness: appending a fourth segment to the three-segment input
`"invalid.token.invalid"` leaves `from_token` unchanged. -/
theorem claim_C10_extra_segments_ignored_witness :
    3 ≤ (splitDot "invalid.token.invalid".toList).length ∧
    from_token testKey ("invalid.token.invalid".toList ++ '.' :: "zz".toList)
      = from_token testKey "invalid.token.invalid".toList :=
  ⟨by decide,
   claim_C10_extra_segments_ignored testKey "invalid.token.invalid".toList "zz".toList
     (by decide)⟩

/-- C2 counterexample: the claim says `from_token` never verifies and
returns every well-shaped token.  The input `"MQ==.AAAAAAAAAAA=."` is the
encoding of the record `⟨1, 0, []⟩` — every segment decodes and the
timestamp has 8 bytes — yet `from_token` consults the secret key and
rejects it with `HmacVerification` instead of returning the record. -/
theorem claim_C2_counterexample :
    tokenToString ⟨1, 0, []⟩ = "MQ==.AAAAAAAAAAA=.".toList ∧
    from_token testKey "MQ==.AAAAAAAAAAA=.".toList
      = PanicOr.err TokenError.HmacVerification := by
  refine ⟨by decide, ?_⟩
  rw [show ("MQ==.AAAAAAAAAAA=.".toList) = tokenToString ⟨1, 0, []⟩ from by decide]
  rw [from_token_tokenToString testKey (by norm_num) (by norm_num) (by norm_num) (by simp)]
  rw [if_neg (hmacSha512_ne_nil testKey (canonicalBytes 1 0))]

/-- C2 (amended): `from_token` validates shape and then verifies with the
secret key before returning: an encoded record is returned exactly when
its stored signature equals the recomputed HMAC, and is otherwise
rejected with `HmacVerification`. -/
theorem claim_C2_decode_then_verify (key : List Nat) (uid : Nat) (gen : Int) (mac : List Nat)
    (huid : uid < 18446744073709551616)
    (hlo : -9223372036854775808 ≤ gen) (hhi : gen < 9223372036854775808)
    (hmac : ∀ b ∈ mac, b < 256) :
    from_token key (tokenToString ⟨uid, gen, mac⟩) =
      if hmacSha512 key (canonicalBytes uid gen) = mac then
        PanicOr.ok ⟨uid, gen, mac⟩
      else PanicOr.err TokenError.HmacVerification :=
  from_token_tokenToString key huid hlo hhi hmac

/-- C2 witness: the amended statement instantiated at the record
`⟨3, 7, []⟩` under the test key. -/
theorem claim_C2_decode_then_verify_witness :
    (3 : Nat) < 18446744073709551616 ∧
    (-9223372036854775808 : Int) ≤ 7 ∧ (7 : Int) < 9223372036854775808 ∧
    (∀ b ∈ ([] : List Nat), b < 256) ∧
    from_token testKey (tokenToString ⟨3, 7, []⟩) =
      (if hmacSha512 testKey (canonicalBytes 3 7) = [] then
        PanicOr.ok ⟨3, 7, []⟩
      else PanicOr.err TokenError.HmacVerification) :=
  ⟨by norm_num, by norm_num, by norm_num, by simp,
   claim_C2_decode_then_verify testKey 3 7 [] (by norm_num) (by norm_num) (by norm_num)
     (by simp)⟩

/-- C3 counterexample: the round-trip does not hold "regardless of whether
the signature is a valid HMAC": the record `⟨2, 5, [7]⟩`, whose signature
is not the HMAC of its fields, encodes and decodes back not to itself but
to the `HmacVerification` error, because `from_token` verifies before
returning. -/
theorem claim_C3_roundtrip_counterexample :
    from_token testKey (tokenToString ⟨2, 5, [7]⟩) ≠ PanicOr.ok ⟨2, 5, [7]⟩ ∧
    from_token testKey (tokenToString ⟨2, 5, [7]⟩)
      = PanicOr.err TokenError.HmacVerification := by
  have h : from_token testKey (tokenToString ⟨2, 5, [7]⟩)
      = PanicOr.err TokenError.HmacVerification := by
    rw [from_token_tokenToString testKey (by norm_num) (by norm_num) (by norm_num)
      (by intro b hb; simp at hb; omega)]
    rw [if_neg (fun hc => by
      have hlen := congrArg List.length hc
      rw [hmacSha512_length] at hlen
      simp at hlen)]
  exact ⟨by rw [h]; simp, h⟩

/-- C3 (amended): for every `user_id` in the `u64` range and `issued_at`
in the `i64` range, a record whose signature is the valid HMAC of its
fields round-trips: decoding its encoding returns the record with equal
`user_id`, `issued_at` and signature fields. -/
theorem claim_C3_roundtrip_of_verified (key : List Nat) (uid : Nat) (gen : Int) (mac : List Nat)
    (huid : uid < 18446744073709551616)
    (hlo : -9223372036854775808 ≤ gen) (hhi : gen < 9223372036854775808)
    (hsig : mac = hmacSha512 key (canonicalBytes uid gen)) :
    from_token key (tokenToString ⟨uid, gen, mac⟩) = PanicOr.ok ⟨uid, gen, mac⟩ := by
  subst hsig
  rw [from_token_tokenToString key huid hlo hhi (fun b hb => hmacSha512_mem_lt hb)]
  rw [if_pos rfl]

/-- C3 witness: the amended round-trip instantiated at the signed record
`⟨1, 0, HMAC(testKey, "1.0")⟩`. -/
theorem claim_C3_roundtrip_of_verified_witness :
    (1 : Nat) < 18446744073709551616 ∧
    (-9223372036854775808 : Int) ≤ 0 ∧ (0 : Int) < 9223372036854775808 ∧
    hmacSha512 testKey (canonicalBytes 1 0) = hmacSha512 testKey (canonicalBytes 1 0) ∧
    from_token testKey (tokenToString ⟨1, 0, hmacSha512 testKey (canonicalBytes 1 0)⟩)
      = PanicOr.ok ⟨1, 0, hmacSha512 testKey (canonicalBytes 1 0)⟩ :=
  ⟨by norm_num, by norm_num, by norm_num, rfl,
   claim_C3_roundtrip_of_verified testKey 1 0 (hmacSha512 testKey (canonicalBytes 1 0))
     (by norm_num) (by norm_num) (by norm_num) rfl⟩

/-- C7 counterexample: a base64 failure on the signature segment and an
HMAC mismatch do not share one error kind with one generic message: the
former yields `HmacDecoding` ("Failed to decode HMAC for token.") and the
latter `HmacVerification` ("Failed to verify HMAC for token."), so a
caller can tell the two sub-checks apart. -/
theorem claim_C7_counterexample :
    from_token testKey "MQ==.AAAAAAAAAAA=.!!!".toList
      = PanicOr.err TokenError.HmacDecoding ∧
    from_token testKey (tokenToString ⟨2, 0, [0]⟩)
      = PanicOr.err TokenError.HmacVerification ∧
    TokenError.HmacDecoding ≠ TokenError.HmacVerification ∧
    TokenError.message TokenError.HmacDecoding
      ≠ TokenError.message TokenError.HmacVerification := by
  refine ⟨by decide, ?_, by decide, by decide⟩
  rw [from_token_tokenToString testKey (by norm_num) (by norm_num) (by norm_num)
    (by intro b hb; simp at hb; omega)]
  rw [if_neg (fun hc => by
    have hlen := congrArg List.length hc
    rw [hmacSha512_length] at hlen
    simp at hlen)]

/-- C7 (amended): once the first two segments decode, a base64 failure on
the third segment yields `HmacDecoding`, while a decodable third segment
that differs from the recomputed HMAC yields `HmacVerification` — two
distinct error variants with distinct messages. -/
theorem claim_C7_error_kinds (key : List Nat) (s c0 c1 c2 : List Char)
    (rest : List (List Char)) (uid : Nat) (gen : Int)
    (hs : splitDot s = c0 :: c1 :: c2 :: rest)
    (hu : decodeUserId c0 = Except.ok uid)
    (hg : decodeGenerationTime c1 = PanicOr.ok gen) :
    (b64Decode c2 = none → from_token key s = PanicOr.err TokenError.HmacDecoding) ∧
    (∀ mac, b64Decode c2 = some mac → mac ≠ hmacSha512 key (canonicalBytes uid gen) →
      from_token key s = PanicOr.err TokenError.HmacVerification) := by
  constructor
  · intro hb
    unfold from_token
    rw [hs]
    simp only [hu, hg, decodeHmacSeg, hb]
  · intro mac hb hne
    unfold from_token
    rw [hs]
    simp only [hu, hg, decodeHmacSeg, hb, verify]
    rw [if_neg (fun hc => hne hc.symm)]

/-- C7 witness: the mismatch half of the amended statement applied to the
well-shaped input `"Mg==.AAAAAAAAAAA=."`, whose empty third segment
decodes to an empty signature that cannot equal any 64-byte HMAC. -/
theorem claim_C7_error_kinds_witness :
    splitDot "Mg==.AAAAAAAAAAA=.".toList
      = ["Mg==".toList, "AAAAAAAAAAA=".toList, []] ∧
    decodeUserId "Mg==".toList = Except.ok 2 ∧
    decodeGenerationTime "AAAAAAAAAAA=".toList = PanicOr.ok 0 ∧
    b64Decode ([] : List Char) = some [] ∧
    from_token testKey "Mg==.AAAAAAAAAAA=.".toList
      = PanicOr.err TokenError.HmacVerification :=
  ⟨by decide, by decide, by decide, by decide,
   (claim_C7_error_kinds testKey "Mg==.AAAAAAAAAAA=.".toList "Mg==".toList
       "AAAAAAAAAAA=".toList [] [] 2 0 (by decide) (by decide) (by decide)).2
     [] (by decide) (fun h => hmacSha512_ne_nil testKey (canonicalBytes 2 0) h.symm)⟩

/-- C6 counterexample: `from_headers` does not pass "exactly the
remainder of the header value after the prefix" to the decoder: on the
header `"Bearer Bearer MQ==.b.c"` it strips both leading `"Bearer "`
occurrences (`trim_start_matches`) and fails with
`GenerationTimeDecoding`, whereas decoding the remainder after the single
prefix, `"Bearer MQ==.b.c"`, fails with `UserIdBase64Decoding`. -/
theorem claim_C6_counterexample :
    from_headers testKey (some (strToUtf8 "Bearer Bearer MQ==.b.c".toList))
      = PanicOr.err TokenError.GenerationTimeDecoding ∧
    from_token testKey "Bearer MQ==.b.c".toList
      = PanicOr.err TokenError.UserIdBase64Decoding ∧
    from_headers testKey (some (strToUtf8 "Bearer Bearer MQ==.b.c".toList))
      ≠ from_token testKey "Bearer MQ==.b.c".toList := by
  refine ⟨by decide, by decide, by decide⟩

/-- C6 (amended): an absent header yields `MissingAuthorizationHeader`; a
header with any byte outside visible ASCII or tab (`HeaderValue::to_str`,
stricter than UTF-8) yields `InvalidAuthorizationHeader`; a header not
starting with `"Bearer "` yields `InvalidAuthorizationHeaderFormat`; and
otherwise the header text with every consecutive leading `"Bearer "`
occurrence removed is passed to `from_token`. -/
theorem claim_C6_from_headers (key : List Nat) :
    from_headers key none = PanicOr.err TokenError.MissingAuthorizationHeader ∧
    (∀ bs : List Nat, (∃ b ∈ bs, ¬((32 ≤ b ∧ b < 127) ∨ b = 9)) →
      from_headers key (some bs) = PanicOr.err TokenError.InvalidAuthorizationHeader) ∧
    (∀ (bs : List Nat) (cs : List Char),
      headerToStr bs = some cs → startsBearer cs = false →
      from_headers key (some bs) = PanicOr.err TokenError.InvalidAuthorizationHeaderFormat) ∧
    (∀ (bs : List Nat) (cs : List Char),
      headerToStr bs = some cs → startsBearer cs = true →
      from_headers key (some bs) = from_token key (trimBearer cs)) := by
  refine ⟨rfl, ?_, ?_, ?_⟩
  · rintro bs ⟨b, hb, hnb⟩
    have hall : bs.all (fun b => (32 ≤ b && b < 127) || b == 9) = false := by
      rw [List.all_eq_false]
      exact ⟨b, hb, by simpa using hnb⟩
    simp [from_headers, headerToStr, hall]
  · intro bs cs h hsb
    simp [from_headers, h, hsb]
  · intro bs cs h hsb
    simp [from_headers, h, hsb]

/-- C6 witness: the pass-through part of the amended statement applied to
the header `"Bearer x"`. -/
theorem claim_C6_from_headers_witness :
    headerToStr (strToUtf8 "Bearer x".toList) = some "Bearer x".toList ∧
    startsBearer "Bearer x".toList = true ∧
    from_headers testKey (some (strToUtf8 "Bearer x".toList))
      = from_token testKey (trimBearer "Bearer x".toList) :=
  ⟨by decide, by decide,
   (claim_C6_from_headers testKey).2.2.2 (strToUtf8 "Bearer x".toList) "Bearer x".toList
     (by decide) (by decide)⟩

/-- C8: refreshing re-signs for the same `user_id` with the fresh clock
value, and does not invalidate the prior record: the old record still
verifies unchanged, and remains unexpired for any current time within its
own expiration window. -/
theorem claim_C8_refresh_non_revocation (key : List Nat) (now2 expSec tNow : Int)
    (t : AuthenticationToken)
    (hv : verify key t = Except.ok ())
    (hwin : tNow - t.generation_time ≤ expSec * 1000) :
    (refresh key now2 t).user_id = t.user_id ∧
    (refresh key now2 t).generation_time = now2 ∧
    verify key (refresh key now2 t) = Except.ok () ∧
    verify key t = Except.ok () ∧
    expired expSec tNow t = false := by
  refine ⟨rfl, rfl, ?_, hv, ?_⟩
  · simp [verify, refresh, newToken]
  · simp only [expired, decide_eq_false_iff_not]
    omega

/-- C8 witness: a record signed at time 0 for user 5 under the test key,
refreshed at time 9, checked at the last instant of its hour-long
window. -/
theorem claim_C8_refresh_non_revocation_witness :
    verify testKey (newToken testKey 0 5) = Except.ok () ∧
    (3600000 : Int) - (newToken testKey 0 5).generation_time ≤ 3600 * 1000 ∧
    ((refresh testKey 9 (newToken testKey 0 5)).user_id = (newToken testKey 0 5).user_id ∧
     (refresh testKey 9 (newToken testKey 0 5)).generation_time = 9 ∧
     verify testKey (refresh testKey 9 (newToken testKey 0 5)) = Except.ok () ∧
     verify testKey (newToken testKey 0 5) = Except.ok () ∧
     expired 3600 3600000 (newToken testKey 0 5) = false) := by
  have hv : verify testKey (newToken testKey 0 5) = Except.ok () := by
    simp [verify, newToken]
  have hwin : (3600000 : Int) - (newToken testKey 0 5).generation_time ≤ 3600 * 1000 := by
    norm_num [newToken]
  exact ⟨hv, hwin, claim_C8_refresh_non_revocation testKey 9 3600 3600000 _ hv hwin⟩

end Aurora
